import Mathlib

/-!
Verification development for the prbrain core: the unified-diff parser
(`src/utils/diff-parser.ts`), the lexical text-similarity functions and the
deduplication engine (`src/core/dedup.ts`), and the embedding store
(`src/adapters/storage.ts`).

Conventions of the shallow embedding:
* JavaScript numbers are modelled as `ℚ` (all similarity arithmetic in the
  claims is exact), JavaScript integers as `Nat`/`Int`.
* JavaScript strings are modelled as Lean `String` / `List Char`; per-character
  work is done on `List Char`.
* `Date` values (`createdAt`) are modelled by their `getTime` integer value.
* `Array.prototype.sort(cmp)` (a stable sort by the comparator's order) is
  modelled by Mathlib's stable `List.insertionSort`.
* `Map<string, T>` (insertion ordered, `set` replaces in place) is modelled as
  an association list with a replace-in-place `mapSet`.
* Fallible external calls (OpenAI embedding, GitHub search, file I/O) are
  modelled by `Option`-valued inputs describing the call's outcome.
-/

/-! ### Data model (`src/types/index.ts`) -/

/-- `'pr' | 'issue'` -/
inductive ItemType
  | pr
  | issue
deriving DecidableEq, Repr

/-- `'open' | 'closed' | 'merged' | 'draft'` (`open` is a Lean keyword, so the
first constructor is called `opened`). -/
inductive ItemStatus
  | opened
  | closed
  | merged
  | draft
deriving DecidableEq, Repr

/-- `SimilarItem` from `src/types/index.ts`. -/
structure SimilarItem where
  type : ItemType
  number : Nat
  title : String
  similarity : ℚ
  status : ItemStatus
  url : String
deriving DecidableEq, Repr

/-- `EmbeddingData` from `src/types/index.ts`; `createdAt` is the
`getTime` value of the ISO timestamp. -/
structure EmbeddingData where
  id : String
  type : ItemType
  number : Nat
  title : String
  body : String
  embedding : List ℚ
  createdAt : Int
deriving DecidableEq, Repr

/-- `StoredEmbeddings` from `src/types/index.ts`. -/
structure StoredEmbeddings where
  version : String
  embeddings : List EmbeddingData
  lastUpdated : Int
deriving DecidableEq, Repr

/-- `DeduplicationResult` from `src/types/index.ts`. -/
structure DeduplicationResult where
  similarItems : List SimilarItem
  isDuplicate : Bool
  duplicateThreshold : ℚ
deriving DecidableEq, Repr

/-- `'added' | 'removed' | 'context'` -/
inductive DiffLineType
  | added
  | removed
  | context
deriving DecidableEq, Repr

/-- `DiffLine` from `src/types/index.ts`. -/
structure DiffLine where
  type : DiffLineType
  content : String
  lineNumber : Nat
deriving DecidableEq, Repr

/-- `DiffChunk` from `src/types/index.ts`. -/
structure DiffChunk where
  oldStart : Nat
  oldLines : Nat
  newStart : Nat
  newLines : Nat
  lines : List DiffLine
deriving DecidableEq, Repr

/-! ### Diff parser (`src/utils/diff-parser.ts`, `DiffParser.parseDiff`) -/

/-- `line.startsWith(pre)` on the `List Char` representation. -/
def startsWithL (pre : String) (l : List Char) : Bool :=
  pre.data.isPrefixOf l

/-- `s.split(sep)` of JavaScript: splitting on every occurrence of a single
character; always returns at least one (possibly empty) piece. -/
def jsSplitChar (sep : Char) : List Char → List (List Char)
  | [] => [[]]
  | c :: rest =>
    match jsSplitChar sep rest with
    | [] => [[c]]
    | w :: ws => if c = sep then [] :: w :: ws else (c :: w) :: ws

/-- Digit run to the number it denotes (`parseInt(s, 10)` on an all-digit
string). -/
def digitsToNat (ds : List Char) : Nat :=
  ds.foldl (fun n c => n * 10 + (c.toNat - '0'.toNat)) 0

/-- Consume a nonempty maximal digit run (`\d+`), returning its value and the
rest of the input. -/
def digits? (cs : List Char) : Option (Nat × List Char) :=
  let ds := cs.takeWhile Char.isDigit
  if ds = [] then none else some (digitsToNat ds, cs.dropWhile Char.isDigit)

/-- Consume a literal, or fail. -/
def dropPre? (pre : String) (cs : List Char) : Option (List Char) :=
  if pre.data.isPrefixOf cs then some (cs.drop pre.length) else none

/-- The optional count group `(?:,(\d+))?` of the hunk-header regex: if a comma
followed by digits is present it is consumed, if no comma is present the count
defaults to 1 (`parseInt(chunkMatch[2] || '1', 10)`), and a comma not followed
by a digit makes the whole header match fail. -/
def optCount (cs : List Char) : Option (Nat × List Char) :=
  match cs with
  | ',' :: rest =>
    match digits? rest with
    | some (n, rest2) => some (n, rest2)
    | none => none
  | _ => some (1, cs)

/-- The hunk-header regex `^@@ -(\d+)(?:,(\d+))? \+(\d+)(?:,(\d+))? @@` of
`DiffParser.parseDiff`, returning `(oldStart, oldLines, newStart, newLines)`
when the line matches. -/
def chunkHeader? (line : List Char) : Option (Nat × Nat × Nat × Nat) := do
  let r1 ← dropPre? "@@ -" line
  let (oldStart, r2) ← digits? r1
  let (oldLines, r3) ← optCount r2
  let r4 ← dropPre? " +" r3
  let (newStart, r5) ← digits? r4
  let (newLines, r6) ← optCount r5
  let _ ← dropPre? " @@" r6
  pure (oldStart, oldLines, newStart, newLines)

/-- The metadata test of `DiffParser.parseDiff`: lines beginning with
`diff --git`, `index `, `---`, `+++` are skipped. -/
def isMetadataLine (line : List Char) : Bool :=
  startsWithL "diff --git" line || startsWithL "index " line ||
    startsWithL "---" line || startsWithL "+++" line

/-- Parser state of the `for (const line of lines)` loop of
`DiffParser.parseDiff`: the closed chunks and the currently open chunk. -/
structure ParseState where
  chunks : List DiffChunk
  current : Option DiffChunk
deriving DecidableEq, Repr

/-- One iteration of the line loop of `DiffParser.parseDiff`: check for a hunk
header (closing the open chunk), else skip metadata, else append a `+`/`-`/
space line to the open chunk, computing `lineNumber` exactly as the source
does. -/
def processLine (st : ParseState) (line : List Char) : ParseState :=
  match chunkHeader? line with
  | some (oldStart, oldLines, newStart, newLines) =>
    { chunks := st.chunks ++ st.current.toList,
      current := some { oldStart := oldStart, oldLines := oldLines,
                        newStart := newStart, newLines := newLines, lines := [] } }
  | none =>
    if isMetadataLine line then st
    else
      match st.current with
      | some ch =>
        if startsWithL "+" line || startsWithL "-" line || startsWithL " " line then
          let type := if startsWithL "+" line then DiffLineType.added
                      else if startsWithL "-" line then DiffLineType.removed
                      else DiffLineType.context
          let content := String.mk (line.drop 1)
          let lineNumber :=
            if type = DiffLineType.added then
              ch.newStart + (ch.lines.filter (fun l => l.type ≠ DiffLineType.removed)).length
            else
              ch.oldStart + (ch.lines.filter (fun l => l.type ≠ DiffLineType.added)).length
          { st with current := some { ch with lines := ch.lines ++ [{ type := type, content := content, lineNumber := lineNumber }] } }
        else st
      | none => st

/-- `DiffParser.parseDiff`: empty input gives no chunks; otherwise fold the
line loop over `diff.split('\n')` and append the still-open chunk at the
end. -/
def parseDiff (diff : String) : List DiffChunk :=
  if diff = "" then []
  else
    let st := (jsSplitChar '\n' diff.data).foldl processLine { chunks := [], current := none }
    st.chunks ++ st.current.toList

/-! ### Text similarity (`Deduplicator.calculateTextSimilarity` /
`calculateCharacterSimilarity` in `src/core/dedup.ts`) -/

/-- JavaScript `\w` (the regexes here are ASCII): `[A-Za-z0-9_]`. -/
def isWordChar (c : Char) : Bool :=
  c.isAlpha || c.isDigit || c = '_'

/-- JavaScript `\s`, restricted to the ASCII whitespace characters. -/
def isJsSpace (c : Char) : Bool :=
  c = ' ' || c = '\t' || c = '\n' || c = '\r' || c = '\x0b' || c = '\x0c'

/-- `replace(/\s+/g, ' ')`: each maximal whitespace run becomes one space.
The `Bool` argument records whether the previous character was whitespace. -/
def collapseWsAux : Bool → List Char → List Char
  | _, [] => []
  | prevSpace, c :: rest =>
    if isJsSpace c then
      if prevSpace then collapseWsAux true rest else ' ' :: collapseWsAux true rest
    else c :: collapseWsAux false rest

/-- `trim()`: drop whitespace from both ends. -/
def trimChars (cs : List Char) : List Char :=
  ((cs.dropWhile isJsSpace).reverse.dropWhile isJsSpace).reverse

/-- The `normalize` closure of `calculateTextSimilarity`: lowercase, replace
`[^\w\s]` by a space, collapse whitespace runs, trim. -/
def normalizeChars (cs : List Char) : List Char :=
  let lowered := cs.map Char.toLower
  let stripped := lowered.map (fun c => if !(isWordChar c || isJsSpace c) then ' ' else c)
  trimChars (collapseWsAux false stripped)

/-- JavaScript `s.split(' ')`: split on every single space. -/
def splitOnSpace : List Char → List (List Char) :=
  jsSplitChar ' '

/-- The matching loop of `calculateCharacterSimilarity`: for each character of
the shorter string, `longer.indexOf(char, j)`; a hit counts as a match and
moves the cursor past it, a miss leaves the cursor in place; the loop stops
when either string is exhausted.  The second argument is the part of the
longer string at and after the cursor `j`. -/
def scanCount : List Char → List Char → Nat
  | [], _ => 0
  | _ :: _, [] => 0
  | c :: cs, d :: ds =>
    match (d :: ds).findIdx? (fun x => x == c) with
    | some k => 1 + scanCount cs ((d :: ds).drop (k + 1))
    | none => scanCount cs (d :: ds)

/-- `Deduplicator.calculateCharacterSimilarity` (inputs are already
normalized): pick shorter/longer (ties make `text1` the longer one), scan, and
divide the match count by the longer length. -/
def calculateCharacterSimilarity (text1 text2 : List Char) : ℚ :=
  let shorter := if text1.length < text2.length then text1 else text2
  let longer := if text2.length ≤ text1.length then text1 else text2
  if shorter.length = 0 then 0
  else (scanCount shorter longer : ℚ) / (longer.length : ℚ)

/-- `Deduplicator.calculateTextSimilarity`: normalize both strings, return 0 if
either normalization is empty, otherwise `0.7 * wordJaccard + 0.3 * charScore`
where the word sets are the deduplicated space-split words. -/
def calculateTextSimilarity (text1 text2 : String) : ℚ :=
  let normalized1 := normalizeChars text1.data
  let normalized2 := normalizeChars text2.data
  if normalized1 = [] ∨ normalized2 = [] then 0
  else
    let words1 := (splitOnSpace normalized1).dedup
    let words2 := (splitOnSpace normalized2).dedup
    let intersection := words1.filter (fun w => words2.contains w)
    let union := (words1 ++ words2).dedup
    let jaccardSimilarity : ℚ :=
      if 0 < union.length then (intersection.length : ℚ) / (union.length : ℚ) else 0
    let charSimilarity := calculateCharacterSimilarity normalized1 normalized2
    jaccardSimilarity * (7 / 10) + charSimilarity * (3 / 10)

/-! ### Embedding store (`src/adapters/storage.ts`) -/

/-- `EMBEDDING_VERSION` from `src/config/defaults.ts`. -/
def EMBEDDING_VERSION : String := "1.0"

/-- `MAX_EMBEDDINGS` from `StorageAdapter.addEmbedding`. -/
def MAX_EMBEDDINGS : Nat := 1000

/-- `StorageAdapter.createEmptyEmbeddings`; `now` is the `new Date()`
timestamp. -/
def createEmptyEmbeddings (now : Int) : StoredEmbeddings :=
  { version := EMBEDDING_VERSION, embeddings := [], lastUpdated := now }

/-- Outcome of `fs.readFile` + `JSON.parse` in `StorageAdapter.loadEmbeddings`:
the file is absent (`ENOENT`), reading or parsing threw some other error, or a
collection was parsed. -/
inductive LoadOutcome
  | fileMissing
  | readError
  | parsed (stored : StoredEmbeddings)
deriving DecidableEq, Repr

/-- `StorageAdapter.loadEmbeddings`: a parsed collection is kept only when its
`version` equals `EMBEDDING_VERSION`; a version mismatch, a missing file and
any other read/parse error all produce `createEmptyEmbeddings`. -/
def loadEmbeddings (outcome : LoadOutcome) (now : Int) : StoredEmbeddings :=
  match outcome with
  | LoadOutcome.fileMissing => createEmptyEmbeddings now
  | LoadOutcome.readError => createEmptyEmbeddings now
  | LoadOutcome.parsed stored =>
    if stored.version ≠ EMBEDDING_VERSION then createEmptyEmbeddings now else stored

/-- The descending-`createdAt` order of the comparator
`(a, b) => new Date(b.createdAt).getTime() - new Date(a.createdAt).getTime()`
in `StorageAdapter.addEmbedding`. -/
def createdDesc (a b : EmbeddingData) : Prop :=
  b.createdAt ≤ a.createdAt

instance : DecidableRel createdDesc :=
  fun a b => inferInstanceAs (Decidable (b.createdAt ≤ a.createdAt))

instance : IsTotal EmbeddingData createdDesc :=
  ⟨fun a b => (le_total b.createdAt a.createdAt).imp id id⟩

instance : IsTrans EmbeddingData createdDesc :=
  ⟨fun _ _ _ h1 h2 => le_trans h2 h1⟩

/-- The pure core of `StorageAdapter.addEmbedding`, acting on the loaded
collection: drop any record with the same `id`, push the new record, sort by
`createdAt` descending (stable, like `Array.prototype.sort`), and slice to
`MAX_EMBEDDINGS` entries when the cap is exceeded. -/
def addEmbedding (stored : StoredEmbeddings) (embedding : EmbeddingData) : StoredEmbeddings :=
  let filtered := stored.embeddings.filter (fun e => e.id ≠ embedding.id)
  let pushed := filtered ++ [embedding]
  let sorted := List.insertionSort createdDesc pushed
  let limited := if MAX_EMBEDDINGS < sorted.length then sorted.take MAX_EMBEDDINGS else sorted
  { stored with embeddings := limited }

/-! ### Deduplication engine (`Deduplicator` in `src/core/dedup.ts`) -/

/-- An element of the `vectorSimilar` result list:
`EmbeddingData & \x7b similarity: number \x7d`. -/
structure VectorHit extends EmbeddingData where
  similarity : ℚ
deriving DecidableEq, Repr

/-- String form of the `type` field used in map keys. -/
def itemTypeStr : ItemType → String
  | ItemType.pr => "pr"
  | ItemType.issue => "issue"

/-- The merge key of `combineAndRankSimilarItems`:
the template string with type and number separated by a colon. -/
def itemKey (type : ItemType) (number : Nat) : String :=
  itemTypeStr type ++ ":" ++ toString number

/-- `Deduplicator.createItemUrl`: fallback URL construction (the `type`
parameter is unused in the source as well). -/
def createItemUrl (type : ItemType) (number : Nat) : String :=
  "https://github.com" ++ "/pull/" ++ toString number

/-- The `Map<string, SimilarItem>` of `combineAndRankSimilarItems`, as an
insertion-ordered association list. -/
abbrev SimMap := List (String × SimilarItem)

/-- `Map.set`: replace in place when the key is present, append otherwise. -/
def mapSet (m : SimMap) (k : String) (v : SimilarItem) : SimMap :=
  if m.any (fun p => p.1 == k) then
    m.map (fun p => if p.1 == k then (k, v) else p)
  else m ++ [(k, v)]

/-- `Map.get`. -/
def mapGet (m : SimMap) (k : String) : Option SimilarItem :=
  (m.find? (fun p => p.1 == k)).map (fun p => p.2)

/-- One iteration of the vector loop of `combineAndRankSimilarItems`: skip the
current PR itself, otherwise store a `SimilarItem` with status `open` and a
constructed URL under the item's key. -/
def vectorStep (currentPRNumber : Nat) (m : SimMap) (item : VectorHit) : SimMap :=
  if item.number = currentPRNumber ∧ item.type = ItemType.pr then m
  else
    mapSet m (itemKey item.type item.number)
      { type := item.type, number := item.number, title := item.title,
        similarity := item.similarity, status := ItemStatus.opened,
        url := createItemUrl item.type item.number }

/-- One iteration of the text loop of `combineAndRankSimilarItems`: skip the
current PR itself; when the key is already present, set the similarity to
`max(existing, existing*0.7 + item*0.3)` and take status and URL from the text
item; otherwise insert the text item. -/
def textStep (currentPRNumber : Nat) (m : SimMap) (item : SimilarItem) : SimMap :=
  if item.number = currentPRNumber ∧ item.type = ItemType.pr then m
  else
    let key := itemKey item.type item.number
    match mapGet m key with
    | some existing =>
      let combinedSimilarity := existing.similarity * (7 / 10) + item.similarity * (3 / 10)
      mapSet m key
        { existing with similarity := max existing.similarity combinedSimilarity,
                        status := item.status, url := item.url }
    | none => mapSet m key item

/-- The descending-similarity order of the comparator
`(a, b) => b.similarity - a.similarity`. -/
def simDesc (a b : SimilarItem) : Prop :=
  b.similarity ≤ a.similarity

instance : DecidableRel simDesc :=
  fun a b => inferInstanceAs (Decidable (b.similarity ≤ a.similarity))

instance : IsTotal SimilarItem simDesc :=
  ⟨fun a b => (le_total b.similarity a.similarity).imp id id⟩

instance : IsTrans SimilarItem simDesc :=
  ⟨fun _ _ _ h1 h2 => le_trans h2 h1⟩

/-- `Deduplicator.combineAndRankSimilarItems`: run the vector loop, then the
text loop, then sort the map's values by similarity descending. -/
def combineAndRankSimilarItems (vectorSimilar : List VectorHit)
    (textSimilar : List SimilarItem) (currentPRNumber : Nat) : List SimilarItem :=
  let afterVector := vectorSimilar.foldl (vectorStep currentPRNumber) []
  let combined := textSimilar.foldl (textStep currentPRNumber) afterVector
  List.insertionSort simDesc (combined.map (fun p => p.2))

/-- The `isDuplicate` computation
`similarItems.length > 0 && similarItems[0]!.similarity >= 0.9`. -/
def isDuplicateOf (similarItems : List SimilarItem) : Bool :=
  decide (0 < similarItems.length) &&
    (match similarItems.head? with
     | some first => decide ((9 / 10 : ℚ) ≤ first.similarity)
     | none => false)

/-- `Deduplicator.findDuplicates`.  The external calls are abstracted by the
two `Option` arguments: `mainResults` is `some (vectorSimilar, textSimilar)`
when the whole `try` block (embedding, upsert, vector query, GitHub text
search) succeeded with those result sets, and `none` when any of those steps
threw; `fallbackResults` is the outcome of the GitHub text search retried in
the first `catch` block.  The body past those calls is translated exactly:
threshold filter and top-10 slice on the merged ranking on the main path,
threshold filter and top-5 slice of the raw text results on the fallback path,
empty verdict when both fail. -/
def findDuplicates (similarityThreshold : ℚ) (contextNumber : Nat)
    (mainResults : Option (List VectorHit × List SimilarItem))
    (fallbackResults : Option (List SimilarItem)) : DeduplicationResult :=
  match mainResults with
  | some (vectorSimilar, textSimilar) =>
    let combinedSimilar := combineAndRankSimilarItems vectorSimilar textSimilar contextNumber
    let similarItems := (combinedSimilar.filter (fun item => similarityThreshold ≤ item.similarity)).take 10
    { similarItems := similarItems, isDuplicate := isDuplicateOf similarItems,
      duplicateThreshold := similarityThreshold }
  | none =>
    match fallbackResults with
    | some textSimilar =>
      let similarItems := (textSimilar.filter (fun item => similarityThreshold ≤ item.similarity)).take 5
      { similarItems := similarItems, isDuplicate := isDuplicateOf similarItems,
        duplicateThreshold := similarityThreshold }
    | none =>
      { similarItems := [], isDuplicate := false, duplicateThreshold := similarityThreshold }

/-! ### Function-change heuristic (`DiffParser.extractFunctionChanges` /
`detectFunctionDefinition`), with a small backtracking regex engine for the
fixed pattern list.  Regex braces are written `\x7b`/`\x7d` below. -/

/-- Character classes occurring in the patterns. -/
inductive CharClass
  | word
  | ws
  | notOf (cs : List Char)
  | oneOf (cs : List Char)
deriving DecidableEq, Repr

/-- Membership test of a character class. -/
def ccTest : CharClass → Char → Bool
  | CharClass.word, c => isWordChar c
  | CharClass.ws, c => isJsSpace c
  | CharClass.notOf cs, c => !(cs.contains c)
  | CharClass.oneOf cs, c => cs.contains c

/-- Regular expressions as used by the pattern list: literals, classes,
concatenation, ordered alternation, greedy `*`/`?`/`+`, and the single
capture group `(\w+)` each pattern contains. -/
inductive RE
  | eps
  | str (s : List Char)
  | cls (c : CharClass)
  | cat (a b : RE)
  | alt (a b : RE)
  | star (r : RE)
  | opt (r : RE)
  | plus (r : RE)
  | group (r : RE)
deriving DecidableEq, Repr

/-- Greedy Kleene star over a matcher `m`: all runs of zero or more matches of
`m`, longest-first, each iteration consuming at least one character. -/
def starRuns (m : List Char → List (List Char × Option (List Char))) (s : List Char) :
    List (List Char × Option (List Char)) :=
  (((m s).filter (fun p => p.1.length < s.length)).attach.flatMap
    (fun p => (starRuns m p.1.1).map (fun q => (q.1, p.1.2.orElse (fun _ => q.2)))))
  ++ [(s, none)]
termination_by s.length
decreasing_by exact of_decide_eq_true (List.mem_filter.mp p.2).2

/-- Backtracking matcher: all ways a regex can match a prefix of `s`, in
backtracking priority order (alternatives left to right, repetitions
longest-first); each result is the remaining suffix together with the capture
of the group, if any. -/
def matchRuns : RE → List Char → List (List Char × Option (List Char))
  | RE.eps, s => [(s, none)]
  | RE.str l, s => if l.isPrefixOf s then [(s.drop l.length, none)] else []
  | RE.cls c, s =>
    match s with
    | [] => []
    | ch :: rest => if ccTest c ch then [(rest, none)] else []
  | RE.cat a b, s =>
    (matchRuns a s).flatMap
      (fun p => (matchRuns b p.1).map (fun q => (q.1, p.2.orElse (fun _ => q.2))))
  | RE.alt a b, s => matchRuns a s ++ matchRuns b s
  | RE.opt r, s => matchRuns r s ++ [(s, none)]
  | RE.plus r, s =>
    (matchRuns r s).flatMap
      (fun p => (starRuns (matchRuns r) p.1).map (fun q => (q.1, p.2.orElse (fun _ => q.2))))
  | RE.star r, s => starRuns (matchRuns r) s
  | RE.group r, s =>
    (matchRuns r s).map (fun p => (p.1, some (s.take (s.length - p.1.length))))

/-- `s.match(re)` without anchors: try each start position left to right and
return the first match's capture (`none` for no match at all, `some none` for
a match whose group captured nothing). -/
def searchFrom (r : RE) : List Char → Option (Option (List Char))
  | [] =>
    match (matchRuns r []).head? with
    | some p => some p.2
    | none => none
  | c :: rest =>
    match (matchRuns r (c :: rest)).head? with
    | some p => some p.2
    | none => searchFrom r rest

/-- Literal regex piece. -/
def reLit (s : String) : RE := RE.str s.data

/-- Concatenation of a pattern list. -/
def reCats (rs : List RE) : RE := rs.foldr RE.cat RE.eps

/-- `\s*` -/
def wsStar : RE := RE.star (RE.cls CharClass.ws)

/-- `\s+` -/
def wsPlus : RE := RE.plus (RE.cls CharClass.ws)

/-- `\w+` -/
def wordPlus : RE := RE.plus (RE.cls CharClass.word)

/-- The capture group `(\w+)`. -/
def groupWord : RE := RE.group wordPlus

/-- `\([^)]*\)` -/
def reParens : RE := reCats [reLit "(", RE.star (RE.cls (CharClass.notOf [')'])), reLit ")"]

/-- JavaScript/TypeScript pattern
`(?:function\s+|const\s+|let\s+|var\s+)(\w+)\s*[=:]?\s*(?:\([^)]*\)|async\s+\([^)]*\))\s*(?:=>|\x7b)` -/
def pattern1 : RE :=
  reCats [
    RE.alt (RE.cat (reLit "function") wsPlus)
      (RE.alt (RE.cat (reLit "const") wsPlus)
        (RE.alt (RE.cat (reLit "let") wsPlus) (RE.cat (reLit "var") wsPlus))),
    groupWord, wsStar, RE.opt (RE.cls (CharClass.oneOf ['=', ':'])), wsStar,
    RE.alt reParens (reCats [reLit "async", wsPlus, reParens]),
    wsStar, RE.alt (reLit "=>") (reLit "\x7b")]

/-- Method-definition pattern `(?:async\s+)?(\w+)\s*\([^)]*\)\s*(?::\s*[^\x7b]+)?\s*\x7b` -/
def pattern2 : RE :=
  reCats [RE.opt (RE.cat (reLit "async") wsPlus), groupWord, wsStar, reParens, wsStar,
    RE.opt (reCats [reLit ":", wsStar, RE.plus (RE.cls (CharClass.notOf ['\x7b']))]),
    wsStar, reLit "\x7b"]

/-- Python pattern `def\s+(\w+)\s*\([^)]*\)\s*(?:->\s*[^:]+)?\s*:` -/
def pattern3 : RE :=
  reCats [reLit "def", wsPlus, groupWord, wsStar, reParens, wsStar,
    RE.opt (reCats [reLit "->", wsStar, RE.plus (RE.cls (CharClass.notOf [':']))]),
    wsStar, reLit ":"]

/-- Java/C#/C++ pattern
`(?:public|private|protected|static|\s)*\s*(?:\w+\s+)*(\w+)\s*\([^)]*\)\s*(?:throws\s+\w+\s*)?\x7b` -/
def pattern4 : RE :=
  reCats [
    RE.star (RE.alt (reLit "public") (RE.alt (reLit "private")
      (RE.alt (reLit "protected") (RE.alt (reLit "static") (RE.cls CharClass.ws))))),
    wsStar, RE.star (RE.cat wordPlus wsPlus), groupWord, wsStar, reParens, wsStar,
    RE.opt (reCats [reLit "throws", wsPlus, wordPlus, wsStar]), reLit "\x7b"]

/-- Go pattern `func\s+(?:\([^)]*\)\s+)?(\w+)\s*\([^)]*\)(?:\s*[^\x7b]+)?\s*\x7b` -/
def pattern5 : RE :=
  reCats [reLit "func", wsPlus, RE.opt (RE.cat reParens wsPlus), groupWord, wsStar, reParens,
    RE.opt (RE.cat wsStar (RE.plus (RE.cls (CharClass.notOf ['\x7b'])))), wsStar, reLit "\x7b"]

/-- Rust pattern `(?:pub\s+)?fn\s+(\w+)\s*(?:<[^>]*>)?\s*\([^)]*\)(?:\s*->\s*[^\x7b]+)?\s*\x7b` -/
def pattern6 : RE :=
  reCats [RE.opt (RE.cat (reLit "pub") wsPlus), reLit "fn", wsPlus, groupWord, wsStar,
    RE.opt (reCats [reLit "<", RE.star (RE.cls (CharClass.notOf ['>'])), reLit ">"]),
    wsStar, reParens,
    RE.opt (reCats [wsStar, reLit "->", wsStar, RE.plus (RE.cls (CharClass.notOf ['\x7b']))]),
    wsStar, reLit "\x7b"]

/-- The fixed, priority-ordered pattern list of `detectFunctionDefinition`. -/
def patterns : List RE := [pattern1, pattern2, pattern3, pattern4, pattern5, pattern6]

/-- The `for (const pattern of patterns)` loop: first pattern whose leftmost
match has a nonempty first group wins. -/
def tryPatterns : List RE → List Char → Option String
  | [], _ => none
  | r :: rs, cs =>
    match searchFrom r cs with
    | some (some g) => if g ≠ [] then some (String.mk g) else tryPatterns rs cs
    | some none => tryPatterns rs cs
    | none => tryPatterns rs cs

/-- `DiffParser.detectFunctionDefinition`: trim the line and try the fixed
pattern list; the `language` parameter is accepted but, as in the source,
never consulted. -/
def detectFunctionDefinition (line : String) (language : Option String) : Option String :=
  let trimmedLine := trimChars line.data
  tryPatterns patterns trimmedLine

/-- `DiffParser.extractFunctionChanges`: walk the parsed chunks; per chunk
track the current function; non-context lines that look like a definition emit
`Added/Modified function: name` and set the context, other nonblank
non-context lines inside a function context emit `Added to`/`Removed from`
entries; finally truncate to the first 10 entries. -/
def extractFunctionChanges (diff : String) (language : Option String) : List String :=
  let chunks := parseDiff diff
  let changes := chunks.foldl (fun changesAcc chunk =>
    (chunk.lines.foldl (fun acc line =>
      let changes := acc.1
      let currentFunction := acc.2
      if line.type ≠ DiffLineType.context then
        match detectFunctionDefinition line.content language with
        | some functionMatch =>
          (changes ++
            [(if line.type = DiffLineType.added then "Added" else "Modified") ++
              " function: " ++ functionMatch],
           functionMatch)
        | none =>
          if currentFunction ≠ "" ∧ String.mk (trimChars line.content.data) ≠ "" then
            if line.type = DiffLineType.added then
              (changes ++
                ["Added to " ++ currentFunction ++ ": " ++ String.mk (trimChars line.content.data)],
               currentFunction)
            else if line.type = DiffLineType.removed then
              (changes ++
                ["Removed from " ++ currentFunction ++ ": " ++
                  String.mk (trimChars line.content.data)],
               currentFunction)
            else (changes, currentFunction)
          else (changes, currentFunction)
      else (changes, currentFunction)) (changesAcc, "")).1) []
  changes.take 10

/-- The C4 invariant on a chunk: every added line's number is `newStart` plus
the count of earlier non-removed lines in the chunk, every removed line's
number is `oldStart` plus the count of earlier non-added lines. -/
def ChunkLinesOK (ch : DiffChunk) : Prop :=
  ∀ i (h : i < ch.lines.length),
    ((ch.lines.get ⟨i, h⟩).type = DiffLineType.added →
      (ch.lines.get ⟨i, h⟩).lineNumber =
        ch.newStart +
          ((ch.lines.take i).filter (fun l => l.type ≠ DiffLineType.removed)).length) ∧
    ((ch.lines.get ⟨i, h⟩).type = DiffLineType.removed →
      (ch.lines.get ⟨i, h⟩).lineNumber =
        ch.oldStart +
          ((ch.lines.take i).filter (fun l => l.type ≠ DiffLineType.added)).length)

/-- The C4 invariant on a parser state: closed chunks and the open chunk all
satisfy `ChunkLinesOK`. -/
def StateOK (st : ParseState) : Prop :=
  (∀ ch ∈ st.chunks, ChunkLinesOK ch) ∧ (∀ ch, st.current = some ch → ChunkLinesOK ch)

/-! ### Concrete inputs used by witnesses and counterexamples -/

/-- A parsed collection with a stale schema version. -/
def c8stored : StoredEmbeddings :=
  { version := "0.9", embeddings := [], lastUpdated := 3 }

/-- A lexical search hit that IS the candidate PR itself (`pr` number 5). -/
def c1SelfItem : SimilarItem :=
  { type := ItemType.pr, number := 5, title := "self", similarity := 19 / 20,
    status := ItemStatus.opened, url := "https://example.org/5" }

/-- A weaker lexical hit, listed first. -/
def c2itemLow : SimilarItem :=
  { type := ItemType.issue, number := 1, title := "low", similarity := 4 / 5,
    status := ItemStatus.opened, url := "https://example.org/1" }

/-- A stronger lexical hit, listed second. -/
def c2itemHigh : SimilarItem :=
  { type := ItemType.issue, number := 2, title := "high", similarity := 9 / 10,
    status := ItemStatus.closed, url := "https://example.org/2" }

/-- A vector hit for `pr` 2 with similarity 0.85. -/
def c3vectorHit : VectorHit :=
  { id := "pr:2", type := ItemType.pr, number := 2, title := "rate limiting",
    body := "adds a limiter", embedding := [1], createdAt := 0, similarity := 17 / 20 }

/-- A lexical hit for the same `pr` 2 with similarity 0.75. -/
def c3textHit : SimilarItem :=
  { type := ItemType.pr, number := 2, title := "rate limiting", similarity := 3 / 4,
    status := ItemStatus.merged, url := "https://example.org/2" }

/-- The spec's end-to-end example diff. -/
def c4diff : String := "@@ -1,3 +1,4 @@\n line1\n+added line\n line3"

/-- The chunk `parseDiff` produces for `c4diff`. -/
def c4chunk : DiffChunk :=
  { oldStart := 1, oldLines := 3, newStart := 1, newLines := 4,
    lines := [
      { type := DiffLineType.context, content := "line1", lineNumber := 1 },
      { type := DiffLineType.added, content := "added line", lineNumber := 2 },
      { type := DiffLineType.context, content := "line3", lineNumber := 2 }] }

/-- An open chunk holding one context line. -/
def c5chunk : DiffChunk :=
  { oldStart := 1, oldLines := 2, newStart := 1, newLines := 3,
    lines := [{ type := DiffLineType.context, content := "ctx", lineNumber := 1 }] }

/-- A parser state with `c5chunk` open. -/
def c5state : ParseState :=
  { chunks := [], current := some c5chunk }

/-- A stored collection with two records with distinct ids. -/
def c7stored : StoredEmbeddings :=
  { version := "1.0", lastUpdated := 0,
    embeddings := [
      { id := "pr:1", type := ItemType.pr, number := 1, title := "one", body := "b1",
        embedding := [1], createdAt := 10 },
      { id := "issue:2", type := ItemType.issue, number := 2, title := "two", body := "b2",
        embedding := [1], createdAt := 30 }] }

/-- A new record reusing id `pr:1`. -/
def c7new : EmbeddingData :=
  { id := "pr:1", type := ItemType.pr, number := 1, title := "one again", body := "b1x",
    embedding := [1], createdAt := 20 }

/-! ### Theorems -/

/-- C8: loading the persisted collection never propagates an error: a missing
file, a corrupt file and a parsed collection whose `version` differs from
`EMBEDDING_VERSION` all yield exactly `createEmptyEmbeddings` — the same
collection as when no prior collection exists — which carries the current
version and zero records. -/
theorem claim8_loadEmbeddings : ∀ (stored : StoredEmbeddings) (now : Int),
    loadEmbeddings LoadOutcome.fileMissing now = createEmptyEmbeddings now ∧
    loadEmbeddings LoadOutcome.readError now = createEmptyEmbeddings now ∧
    (stored.version ≠ EMBEDDING_VERSION →
      loadEmbeddings (LoadOutcome.parsed stored) now = createEmptyEmbeddings now) ∧
    (createEmptyEmbeddings now).version = EMBEDDING_VERSION ∧
    (createEmptyEmbeddings now).embeddings = [] := by
  intro stored now
  refine ⟨rfl, rfl, fun h => ?_, rfl, rfl⟩
  simp [loadEmbeddings, h]

/-- C8 witness: the version-mismatch hypothesis discharged on the concrete
collection `c8stored` (version `0.9`). -/
theorem claim8_witness :
    loadEmbeddings (LoadOutcome.parsed c8stored) 7 = createEmptyEmbeddings 7 :=
  (claim8_loadEmbeddings c8stored 7).2.2.1 (by decide)

/-- C10: `extractFunctionChanges` is independent of the `languageHint`
argument: for every diff and every pair of hint values (including absence) the
results coincide, and likewise `detectFunctionDefinition` never consults the
hint. -/
theorem claim10_languageHint_independence :
    ∀ (diff line : String) (hint1 hint2 : Option String),
      extractFunctionChanges diff hint1 = extractFunctionChanges diff hint2 ∧
      detectFunctionDefinition line hint1 = detectFunctionDefinition line hint2 :=
  fun _ _ _ _ => ⟨rfl, rfl⟩

/-- Elements of `mapSet m k v` are the new pair or old elements. -/
theorem mem_mapSet_elim {m : SimMap} {k : String} {v : SimilarItem} {p : String × SimilarItem}
    (hp : p ∈ mapSet m k v) : p = (k, v) ∨ p ∈ m := by
  unfold mapSet at hp
  split at hp
  · rcases List.mem_map.mp hp with ⟨q, hq, hq2⟩
    by_cases h : q.1 == k
    · rw [if_pos h] at hq2
      exact Or.inl hq2.symm
    · rw [if_neg h] at hq2
      exact Or.inr (hq2 ▸ hq)
  · rcases List.mem_append.mp hp with h | h
    · exact Or.inr h
    · exact Or.inl (by simpa using h)

/-- A successful `mapGet` returns the value of some stored pair. -/
theorem mapGet_eq_some_mem {m : SimMap} {k : String} {v : SimilarItem}
    (h : mapGet m k = some v) : ∃ p ∈ m, p.2 = v := by
  unfold mapGet at h
  cases hf : m.find? (fun p => p.1 == k) with
  | none => rw [hf] at h; exact absurd h (by simp)
  | some q =>
    rw [hf] at h
    exact ⟨q, List.mem_of_find?_eq_some hf, by simpa using h⟩

/-- The vector loop of `combineAndRankSimilarItems` never stores a value
carrying the candidate's own `(pr, number)` identity. -/
theorem vector_fold_not_self (current : Nat) (items : List VectorHit) :
    ∀ m : SimMap, (∀ p ∈ m, ¬(p.2.type = ItemType.pr ∧ p.2.number = current)) →
      ∀ p ∈ items.foldl (vectorStep current) m,
        ¬(p.2.type = ItemType.pr ∧ p.2.number = current) := by
  induction items with
  | nil => intro m hm; simpa using hm
  | cons x xs ih =>
    intro m hm
    rw [List.foldl_cons]
    apply ih
    intro p hp
    unfold vectorStep at hp
    split at hp
    · exact hm p hp
    · rename_i hcond
      rcases mem_mapSet_elim hp with rfl | h
      · exact fun hself => hcond ⟨hself.2, hself.1⟩
      · exact hm p h

/-- The text loop of `combineAndRankSimilarItems` never stores a value
carrying the candidate's own `(pr, number)` identity. -/
theorem text_fold_not_self (current : Nat) (items : List SimilarItem) :
    ∀ m : SimMap, (∀ p ∈ m, ¬(p.2.type = ItemType.pr ∧ p.2.number = current)) →
      ∀ p ∈ items.foldl (textStep current) m,
        ¬(p.2.type = ItemType.pr ∧ p.2.number = current) := by
  induction items with
  | nil => intro m hm; simpa using hm
  | cons x xs ih =>
    intro m hm
    rw [List.foldl_cons]
    apply ih
    intro p hp
    unfold textStep at hp
    split at hp
    · exact hm p hp
    · rename_i hcond
      cases hg : mapGet m (itemKey x.type x.number) with
      | some existing =>
        simp only [hg] at hp
        rcases mem_mapSet_elim hp with rfl | h
        · rcases mapGet_eq_some_mem hg with ⟨q, hq, hq2⟩
          have := hm q hq
          rw [hq2] at this
          exact fun hself => this ⟨hself.1, hself.2⟩
        · exact hm p h
      | none =>
        simp only [hg] at hp
        rcases mem_mapSet_elim hp with rfl | h
        · exact fun hself => hcond ⟨hself.2, hself.1⟩
        · exact hm p h

/-- C1 (amended): on the main path the verdict of `findDuplicates` never
contains the candidate's own `(pr, number)` identity, for every pair of vector
and lexical result sets — in particular even when that identity occurs in both
sets.  (On the degraded text-only fallback path the engine performs no such
exclusion; see the counterexample.) -/
theorem claim1_amended : ∀ (threshold : ℚ) (current : Nat) (vs : List VectorHit)
    (ts : List SimilarItem) (fb : Option (List SimilarItem)) (item : SimilarItem),
    item ∈ (findDuplicates threshold current (some (vs, ts)) fb).similarItems →
    ¬(item.type = ItemType.pr ∧ item.number = current) := by
  intro threshold current vs ts fb item hmem
  simp only [findDuplicates] at hmem
  have h1 : item ∈ combineAndRankSimilarItems vs ts current :=
    List.mem_of_mem_filter (List.mem_of_mem_take hmem)
  unfold combineAndRankSimilarItems at h1
  rw [List.mem_insertionSort] at h1
  rcases List.mem_map.mp h1 with ⟨p, hp, rfl⟩
  exact text_fold_not_self current ts _ (vector_fold_not_self current vs [] (by simp)) p hp

/-- C1 counterexample: on the fallback path (main path failed), a lexical
result set containing the candidate's own `(pr, 5)` identity above threshold
puts that identity straight into the verdict. -/
theorem claim1_counterexample :
    c1SelfItem ∈ (findDuplicates (4 / 5) 5 none (some [c1SelfItem])).similarItems ∧
    c1SelfItem.type = ItemType.pr ∧ c1SelfItem.number = 5 := by
  refine ⟨?_, rfl, rfl⟩
  norm_num [findDuplicates, c1SelfItem]

/-- C1 witness: the amended theorem applied to a concrete main-path run whose
verdict contains the lexical hit `c2itemLow` (an issue, so not the
candidate). -/
theorem claim1_witness :
    ¬(c2itemLow.type = ItemType.pr ∧ c2itemLow.number = 5) :=
  claim1_amended 0 5 [] [c2itemLow] none c2itemLow
    (by norm_num [findDuplicates, combineAndRankSimilarItems, textStep, mapGet, mapSet,
      c2itemLow])

/-- `isDuplicateOf` holds exactly when the list is nonempty and its head is at
least 0.9 similar. -/
theorem isDuplicateOf_iff (l : List SimilarItem) :
    isDuplicateOf l = true ↔
      ∃ first rest, l = first :: rest ∧ (9 / 10 : ℚ) ≤ first.similarity := by
  cases l with
  | nil => simp [isDuplicateOf]
  | cons a t =>
    simp only [isDuplicateOf, List.head?_cons, List.length_cons, Bool.and_eq_true,
      decide_eq_true_eq]
    constructor
    · exact fun h => ⟨a, t, rfl, h.2⟩
    · rintro ⟨first, rest, heq, hsim⟩
      cases heq
      exact ⟨Nat.succ_pos _, hsim⟩

/-- Members of a threshold filter are at or above the threshold. -/
theorem mem_threshold_filter {threshold : ℚ} {l : List SimilarItem} {n : Nat}
    {item : SimilarItem}
    (h : item ∈ (l.filter (fun i => threshold ≤ i.similarity)).take n) :
    threshold ≤ item.similarity := by
  have := List.mem_of_mem_take h
  exact of_decide_eq_true (List.mem_filter.mp this).2

/-- A threshold filter plus slice preserves descending similarity order. -/
theorem pairwise_threshold_filter {threshold : ℚ} {l : List SimilarItem} {n : Nat}
    (h : List.Pairwise simDesc l) :
    List.Pairwise simDesc ((l.filter (fun i => threshold ≤ i.similarity)).take n) :=
  List.Pairwise.sublist (List.take_sublist _ _) (h.filter _)

/-- C2 (amended): on every path the verdict holds only candidates at or above
the configured threshold, has at most 10 entries (at most 5 on the fallback
path), and sets `isDuplicate` exactly when the list is nonempty with head
similarity at least 0.9.  The list is sorted descending by similarity on the
main path; on the text-only fallback path the engine keeps the lexical result
set's own order, so the verdict is sorted whenever that input is (the engine
itself does not sort there — see the counterexample).  On total failure the
verdict is empty and `isDuplicate` is false. -/
theorem claim2_amended : ∀ (threshold : ℚ) (current : Nat) (vs : List VectorHit)
    (ts ts2 : List SimilarItem) (fb : Option (List SimilarItem)),
    ((∀ item ∈ (findDuplicates threshold current (some (vs, ts)) fb).similarItems,
        threshold ≤ item.similarity) ∧
      List.Pairwise simDesc (findDuplicates threshold current (some (vs, ts)) fb).similarItems ∧
      (findDuplicates threshold current (some (vs, ts)) fb).similarItems.length ≤ 10 ∧
      ((findDuplicates threshold current (some (vs, ts)) fb).isDuplicate = true ↔
        ∃ first rest,
          (findDuplicates threshold current (some (vs, ts)) fb).similarItems = first :: rest ∧
            (9 / 10 : ℚ) ≤ first.similarity)) ∧
    ((∀ item ∈ (findDuplicates threshold current none (some ts2)).similarItems,
        threshold ≤ item.similarity) ∧
      (findDuplicates threshold current none (some ts2)).similarItems.length ≤ 5 ∧
      (List.Pairwise simDesc ts2 →
        List.Pairwise simDesc (findDuplicates threshold current none (some ts2)).similarItems) ∧
      ((findDuplicates threshold current none (some ts2)).isDuplicate = true ↔
        ∃ first rest,
          (findDuplicates threshold current none (some ts2)).similarItems = first :: rest ∧
            (9 / 10 : ℚ) ≤ first.similarity)) ∧
    ((findDuplicates threshold current none none).similarItems = [] ∧
      (findDuplicates threshold current none none).isDuplicate = false) := by
  intro threshold current vs ts ts2 fb
  refine ⟨⟨?_, ?_, ?_, ?_⟩, ⟨?_, ?_, ?_, ?_⟩, rfl, rfl⟩
  · intro item h
    exact mem_threshold_filter h
  · exact pairwise_threshold_filter
      (List.sorted_insertionSort simDesc _)
  · exact List.length_take_le _ _
  · exact isDuplicateOf_iff _
  · intro item h
    exact mem_threshold_filter h
  · exact List.length_take_le _ _
  · intro hsorted
    exact pairwise_threshold_filter hsorted
  · exact isDuplicateOf_iff _

/-- C2 counterexample: on the fallback path the verdict keeps the lexical
order as given — here a 0.8-similarity item ahead of a 0.9 one — so the
claimed descending sortedness on every execution path fails. -/
theorem claim2_counterexample :
    (findDuplicates (1 / 2) 99 none (some [c2itemLow, c2itemHigh])).similarItems
        = [c2itemLow, c2itemHigh] ∧
      ¬ List.Pairwise simDesc
        (findDuplicates (1 / 2) 99 none (some [c2itemLow, c2itemHigh])).similarItems := by
  have h : (findDuplicates (1 / 2) 99 none (some [c2itemLow, c2itemHigh])).similarItems
      = [c2itemLow, c2itemHigh] := by
    norm_num [findDuplicates, c2itemLow, c2itemHigh]
  refine ⟨h, ?_⟩
  rw [h]
  intro hp
  have := (List.pairwise_cons.mp hp).1 c2itemHigh (by simp)
  norm_num [simDesc, c2itemLow, c2itemHigh] at this

/-- C2 witness: the amended theorem applied to a concrete fallback run with a
sorted lexical result set, the sortedness hypothesis discharged there. -/
theorem claim2_witness :
    List.Pairwise simDesc
      (findDuplicates (1 / 2) 99 none (some [c2itemHigh, c2itemLow])).similarItems :=
  ((claim2_amended (1 / 2) 99 [] [] [c2itemHigh, c2itemLow] none).2.1).2.2.1
    (by norm_num [List.pairwise_cons, simDesc, c2itemHigh, c2itemLow])

/-- `find?` by key on a cons cell. -/
theorem findKey_cons (q : String × SimilarItem) (l : List (String × SimilarItem)) (k : String) :
    List.find? (fun p => p.1 == k) (q :: l) =
      if q.1 = k then some q else List.find? (fun p => p.1 == k) l := by
  by_cases h : q.1 = k
  · rw [if_pos h]
    exact List.find?_cons_of_pos _ (by simp [h])
  · rw [if_neg h]
    exact List.find?_cons_of_neg _ (by simp [h])

/-- After `mapSet m k v`, looking up `k` finds `v`. -/
theorem mapGet_mapSet_self (m : SimMap) (k : String) (v : SimilarItem) :
    mapGet (mapSet m k v) k = some v := by
  unfold mapSet mapGet
  split
  · rename_i hany
    induction m with
    | nil => simp at hany
    | cons p rest ih =>
      rw [List.map_cons]
      by_cases hp : p.1 = k
      · rw [if_pos (show (p.1 == k) = true by simp [hp]), findKey_cons]
        simp
      · rw [if_neg (show ¬((p.1 == k) = true) by simp [hp]), findKey_cons, if_neg hp]
        apply ih
        rcases List.any_eq_true.mp hany with ⟨q, hq, hq2⟩
        rcases List.mem_cons.mp hq with rfl | hq3
        · exact absurd (by simpa using hq2) hp
        · exact List.any_eq_true.mpr ⟨q, hq3, hq2⟩
  · rename_i hany
    have hnone : m.find? (fun p => p.1 == k) = none := by
      rw [List.find?_eq_none]
      intro x hx hpx
      exact hany (List.any_eq_true.mpr ⟨x, hx, hpx⟩)
    simp [hnone]

/-- `mapSet` at a different key does not change a lookup. -/
theorem mapGet_mapSet_ne (m : SimMap) {k1 k : String} (v : SimilarItem) (h : k1 ≠ k) :
    mapGet (mapSet m k1 v) k = mapGet m k := by
  unfold mapSet mapGet
  split
  · rename_i hany
    clear hany
    induction m with
    | nil => simp
    | cons p rest ih =>
      rw [List.map_cons, findKey_cons p rest k]
      by_cases hp1 : p.1 = k1
      · rw [if_pos (show (p.1 == k1) = true by simp [hp1]), findKey_cons,
          if_neg (show ¬((k1, v).1 = k) by simpa using h),
          if_neg (show ¬(p.1 = k) by rw [hp1]; exact h)]
        exact ih
      · rw [if_neg (show ¬((p.1 == k1) = true) by simp [hp1]), findKey_cons]
        by_cases hpk : p.1 = k
        · rw [if_pos hpk, if_pos hpk]
        · rw [if_neg hpk, if_neg hpk]
          exact ih
  · have hlast : List.find? (fun p => p.1 == k) [(k1, v)] = none := by simp [h]
    rw [List.find?_append, hlast, Option.or_none]

/-- Vector-loop iterations for items with other keys leave a lookup
unchanged. -/
theorem vector_fold_mapGet_ne (current : Nat) (k : String) (items : List VectorHit) :
    ∀ m : SimMap, (∀ x ∈ items, itemKey x.type x.number ≠ k) →
      mapGet (items.foldl (vectorStep current) m) k = mapGet m k := by
  induction items with
  | nil => intro m _; rfl
  | cons x xs ih =>
    intro m hall
    rw [List.foldl_cons, ih _ (fun y hy => hall y (List.mem_cons_of_mem _ hy))]
    unfold vectorStep
    split
    · rfl
    · exact mapGet_mapSet_ne _ _ (hall x (List.mem_cons_self _ _))

/-- Text-loop iterations for items with other keys leave a lookup
unchanged. -/
theorem text_fold_mapGet_ne (current : Nat) (k : String) (items : List SimilarItem) :
    ∀ m : SimMap, (∀ x ∈ items, itemKey x.type x.number ≠ k) →
      mapGet (items.foldl (textStep current) m) k = mapGet m k := by
  induction items with
  | nil => intro m _; rfl
  | cons x xs ih =>
    intro m hall
    rw [List.foldl_cons, ih _ (fun y hy => hall y (List.mem_cons_of_mem _ hy))]
    simp only [textStep]
    split
    · rfl
    · cases hg : mapGet m (itemKey x.type x.number) with
      | some existing =>
        simp only [hg]
        exact mapGet_mapSet_ne _ _ (hall x (List.mem_cons_self _ _))
      | none =>
        simp only [hg]
        exact mapGet_mapSet_ne _ _ (hall x (List.mem_cons_self _ _))

/-- C3: when a key occurs exactly once in the vector result set (similarity
`v`) and exactly once in the lexical result set (similarity `l`), the merged
candidate's similarity is exactly `max(v, 0.7*v + 0.3*l)`, and in particular
at least `v`. -/
theorem claim3_combined_similarity : ∀ (current : Nat) (vs1 vs2 : List VectorHit)
    (e : VectorHit) (ts1 ts2 : List SimilarItem) (t : SimilarItem),
    0 ≤ e.similarity → e.similarity ≤ 1 → 0 ≤ t.similarity → t.similarity ≤ 1 →
    ¬(e.number = current ∧ e.type = ItemType.pr) →
    ¬(t.number = current ∧ t.type = ItemType.pr) →
    itemKey t.type t.number = itemKey e.type e.number →
    (∀ x ∈ vs1, itemKey x.type x.number ≠ itemKey e.type e.number) →
    (∀ x ∈ vs2, itemKey x.type x.number ≠ itemKey e.type e.number) →
    (∀ x ∈ ts1, itemKey x.type x.number ≠ itemKey e.type e.number) →
    (∀ x ∈ ts2, itemKey x.type x.number ≠ itemKey e.type e.number) →
    ∃ si ∈ combineAndRankSimilarItems (vs1 ++ e :: vs2) (ts1 ++ t :: ts2) current,
      itemKey si.type si.number = itemKey e.type e.number ∧
      si.similarity = max e.similarity (e.similarity * (7 / 10) + t.similarity * (3 / 10)) ∧
      e.similarity ≤ si.similarity := by
  intro current vs1 vs2 e ts1 ts2 t h0e h1e h0t h1t hne hnt hkey hv1 hv2 ht1 ht2
  have hAfterVec :
      mapGet ((vs1 ++ e :: vs2).foldl (vectorStep current) []) (itemKey e.type e.number)
        = some { type := e.type, number := e.number, title := e.title,
                 similarity := e.similarity, status := ItemStatus.opened,
                 url := createItemUrl e.type e.number } := by
    rw [List.foldl_append, List.foldl_cons, vector_fold_mapGet_ne current _ vs2 _ hv2]
    unfold vectorStep
    rw [if_neg hne]
    exact mapGet_mapSet_self _ _ _
  have hAfterText :
      mapGet ((ts1 ++ t :: ts2).foldl (textStep current)
          ((vs1 ++ e :: vs2).foldl (vectorStep current) [])) (itemKey e.type e.number)
        = some { type := e.type, number := e.number, title := e.title,
                 similarity := max e.similarity
                   (e.similarity * (7 / 10) + t.similarity * (3 / 10)),
                 status := t.status, url := t.url } := by
    rw [List.foldl_append, List.foldl_cons, text_fold_mapGet_ne current _ ts2 _ ht2]
    have hm1 :
        mapGet (ts1.foldl (textStep current)
            ((vs1 ++ e :: vs2).foldl (vectorStep current) [])) (itemKey e.type e.number)
          = some { type := e.type, number := e.number, title := e.title,
                   similarity := e.similarity, status := ItemStatus.opened,
                   url := createItemUrl e.type e.number } := by
      rw [text_fold_mapGet_ne current _ ts1 _ ht1]
      exact hAfterVec
    simp only [textStep]
    rw [if_neg hnt]
    simp only [hkey, hm1]
    exact mapGet_mapSet_self _ _ _
  rcases mapGet_eq_some_mem hAfterText with ⟨p, hp, hp2⟩
  refine ⟨{ type := e.type, number := e.number, title := e.title,
            similarity := max e.similarity (e.similarity * (7 / 10) + t.similarity * (3 / 10)),
            status := t.status, url := t.url }, ?_, rfl, rfl, le_max_left _ _⟩
  simp only [combineAndRankSimilarItems]
  rw [List.mem_insertionSort]
  exact List.mem_map.mpr ⟨p, hp, hp2⟩

/-- C3 witness: the concrete instance of the spec — vector similarity 0.85,
lexical similarity 0.75 for the same key `pr:2` — giving combined similarity
`max(0.85, 0.85*0.7 + 0.75*0.3) = 0.85 ≥ 0.85`. -/
theorem claim3_witness :
    ∃ si ∈ combineAndRankSimilarItems [c3vectorHit] [c3textHit] 1,
      itemKey si.type si.number = itemKey c3vectorHit.type c3vectorHit.number ∧
      si.similarity = max c3vectorHit.similarity
        (c3vectorHit.similarity * (7 / 10) + c3textHit.similarity * (3 / 10)) ∧
      c3vectorHit.similarity ≤ si.similarity :=
  claim3_combined_similarity 1 [] [] c3vectorHit [] [] c3textHit
    (by norm_num [c3vectorHit]) (by norm_num [c3vectorHit])
    (by norm_num [c3textHit]) (by norm_num [c3textHit])
    (by simp [c3vectorHit]) (by simp [c3textHit])
    (by rfl) (by simp) (by simp) (by simp) (by simp)

/-- Appending a line whose number is computed from the current line list (as
the parser does) preserves the C4 invariant. -/
theorem chunkLinesOK_append (ch : DiffChunk) (x : DiffLine)
    (hx_add : x.type = DiffLineType.added →
      x.lineNumber = ch.newStart +
        (ch.lines.filter (fun l => l.type ≠ DiffLineType.removed)).length)
    (hx_rem : x.type = DiffLineType.removed →
      x.lineNumber = ch.oldStart +
        (ch.lines.filter (fun l => l.type ≠ DiffLineType.added)).length)
    (h : ChunkLinesOK ch) :
    ChunkLinesOK { ch with lines := ch.lines ++ [x] } := by
  intro i hi
  simp only [List.length_append, List.length_cons, List.length_nil, Nat.zero_add] at hi
  by_cases hlt : i < ch.lines.length
  · have hget : ((ch.lines ++ [x]).get ⟨i, by simpa using hi⟩) = ch.lines.get ⟨i, hlt⟩ := by
      simp [List.get_eq_getElem, List.getElem_append_left hlt]
    have htake : (ch.lines ++ [x]).take i = ch.lines.take i :=
      List.take_append_of_le_length (Nat.le_of_lt hlt)
    have hold := h i hlt
    constructor
    · intro ht
      rw [hget] at ht ⊢
      rw [htake]
      exact hold.1 ht
    · intro ht
      rw [hget] at ht ⊢
      rw [htake]
      exact hold.2 ht
  · have hieq : i = ch.lines.length := Nat.le_antisymm (Nat.lt_succ_iff.mp hi) (Nat.le_of_not_lt hlt)
    have hget : ((ch.lines ++ [x]).get ⟨i, by simpa using hi⟩) = x := by
      simp [List.get_eq_getElem, List.getElem_concat_length _ _ _ hieq]
    have htake : (ch.lines ++ [x]).take i = ch.lines := by
      rw [hieq]
      exact List.take_left _ _
    constructor
    · intro ht
      rw [hget] at ht ⊢
      rw [htake]
      exact hx_add ht
    · intro ht
      rw [hget] at ht ⊢
      rw [htake]
      exact hx_rem ht

/-- One parser step preserves the C4 invariant. -/
theorem stateOK_processLine {st : ParseState} (line : List Char) (h : StateOK st) :
    StateOK (processLine st line) := by
  obtain ⟨hchunks, hcur⟩ := h
  unfold processLine
  split
  · refine ⟨?_, ?_⟩
    · intro ch hch
      rcases List.mem_append.mp hch with h1 | h2
      · exact hchunks ch h1
      · cases hc : st.current with
        | none => rw [hc] at h2; simp at h2
        | some cur =>
          rw [hc] at h2
          simp only [Option.toList_some, List.mem_singleton] at h2
          subst h2
          exact hcur ch hc
    · intro ch hch
      injection hch with hch
      subst hch
      intro i hi
      simp at hi
  · split
    · exact ⟨hchunks, hcur⟩
    · split
      · rename_i cur hc
        split
        · refine ⟨hchunks, ?_⟩
          intro ch hch
          injection hch with hch
          subst hch
          refine chunkLinesOK_append cur _ ?_ ?_ (hcur cur hc)
          · intro ht
            simp only at ht ⊢
            rw [if_pos ht]
          · intro ht
            simp only at ht ⊢
            rw [if_neg (by rw [ht]; simp)]
        · exact ⟨hchunks, hcur⟩
      · exact ⟨hchunks, hcur⟩

/-- The parser fold preserves the C4 invariant. -/
theorem stateOK_foldl (lines : List (List Char)) :
    ∀ st, StateOK st → StateOK (lines.foldl processLine st) := by
  induction lines with
  | nil => exact fun _ h => h
  | cons l ls ih =>
    intro st h
    rw [List.foldl_cons]
    exact ih _ (stateOK_processLine l h)

/-- C4: in every chunk produced by `parseDiff`, an added line's `lineNumber`
is the chunk's `newStart` plus the number of earlier lines in the chunk whose
type is not removed, and a removed line's `lineNumber` is the chunk's
`oldStart` plus the number of earlier lines whose type is not added. -/
theorem claim4_lineNumber : ∀ (diff : String), ∀ ch ∈ parseDiff diff,
    ∀ i (h : i < ch.lines.length),
    ((ch.lines.get ⟨i, h⟩).type = DiffLineType.added →
      (ch.lines.get ⟨i, h⟩).lineNumber =
        ch.newStart +
          ((ch.lines.take i).filter (fun l => l.type ≠ DiffLineType.removed)).length) ∧
    ((ch.lines.get ⟨i, h⟩).type = DiffLineType.removed →
      (ch.lines.get ⟨i, h⟩).lineNumber =
        ch.oldStart +
          ((ch.lines.take i).filter (fun l => l.type ≠ DiffLineType.added)).length) := by
  intro diff ch hch
  unfold parseDiff at hch
  split at hch
  · simp at hch
  · simp only [] at hch
    have hst : StateOK ((jsSplitChar '\n' diff.data).foldl processLine
        { chunks := [], current := none }) :=
      stateOK_foldl _ _ ⟨fun c hc => absurd hc (List.not_mem_nil c), fun c hc => by simp at hc⟩
    rcases List.mem_append.mp hch with h1 | h2
    · exact hst.1 ch h1
    · cases hc : ((jsSplitChar '\n' diff.data).foldl processLine
          { chunks := [], current := none }).current with
      | none => rw [hc] at h2; simp at h2
      | some cur =>
        rw [hc] at h2
        simp only [Option.toList_some, List.mem_singleton] at h2
        subst h2
        exact hst.2 ch hc

/-- C4 witness: in the parsed chunk of the spec's example diff, the added line
at index 1 has `lineNumber = newStart + 1 = 2`. -/
theorem claim4_witness :
    (c4chunk.lines.get ⟨1, by decide⟩).type = DiffLineType.added ∧
    (c4chunk.lines.get ⟨1, by decide⟩).lineNumber =
      c4chunk.newStart +
        ((c4chunk.lines.take 1).filter (fun l => l.type ≠ DiffLineType.removed)).length :=
  ⟨by decide, (claim4_lineNumber c4diff c4chunk (by decide) 1 (by decide)).1 (by decide)⟩

/-- A line starting with a known literal starts with that literal's first
character. -/
theorem startsWithL_head {pre : String} {c : Char} {cs : List Char} {line : List Char}
    (hpre : pre.data = c :: cs) (h : startsWithL pre line = true) :
    ∃ xs, line = c :: xs := by
  unfold startsWithL at h
  rw [hpre] at h
  rcases (List.isPrefixOf_iff_prefix.mp h) with ⟨t, ht⟩
  exact ⟨cs ++ t, by rw [← ht]; rfl⟩

/-- A metadata line starts with a character other than `@`. -/
theorem isMetadataLine_head {line : List Char} (h : isMetadataLine line = true) :
    ∃ x xs, line = x :: xs ∧ x ≠ '@' := by
  unfold isMetadataLine at h
  rcases Bool.or_eq_true_iff.mp h with h1 | h4
  · rcases Bool.or_eq_true_iff.mp h1 with h2 | h3
    · rcases Bool.or_eq_true_iff.mp h2 with h5 | h6
      · rcases startsWithL_head rfl h5 with ⟨xs, hxs⟩
        exact ⟨'d', xs, hxs, by decide⟩
      · rcases startsWithL_head rfl h6 with ⟨xs, hxs⟩
        exact ⟨'i', xs, hxs, by decide⟩
    · rcases startsWithL_head rfl h3 with ⟨xs, hxs⟩
      exact ⟨'-', xs, hxs, by decide⟩
  · rcases startsWithL_head rfl h4 with ⟨xs, hxs⟩
    exact ⟨'+', xs, hxs, by decide⟩

/-- A line whose first character is not `@` is not a hunk header. -/
theorem chunkHeader?_eq_none {x : Char} (xs : List Char) (h : x ≠ '@') :
    chunkHeader? (x :: xs) = none := by
  have hdrop : dropPre? "@@ -" (x :: xs) = none := by
    unfold dropPre?
    rw [if_neg]
    intro hpre
    rcases (List.isPrefixOf_iff_prefix.mp hpre) with ⟨t, ht⟩
    have : '@' = x := by
      have := congrArg (fun l => l.head?) ht
      simpa using this
    exact h this.symm
  unfold chunkHeader?
  rw [hdrop]
  rfl

/-- C5: while a hunk is open, a non-metadata line beginning with `+`, `-` or a
space is appended to that hunk as an added, removed or context line
respectively, with the one-character prefix stripped from its content; and a
metadata line (`diff --git`, `index `, `---`, `+++`) leaves the parser state
unchanged, so it never enters any hunk. -/
theorem claim5_line_routing : ∀ (st : ParseState) (line : List Char) (ch : DiffChunk),
    (isMetadataLine line = true → processLine st line = st) ∧
    (st.current = some ch → isMetadataLine line = false →
      (startsWithL "+" line || startsWithL "-" line || startsWithL " " line) = true →
      ∃ newLine : DiffLine,
        processLine st line =
          { chunks := st.chunks, current := some { ch with lines := ch.lines ++ [newLine] } } ∧
        newLine.content = String.mk (line.drop 1) ∧
        (startsWithL "+" line = true → newLine.type = DiffLineType.added) ∧
        (startsWithL "+" line = false → startsWithL "-" line = true →
          newLine.type = DiffLineType.removed) ∧
        (startsWithL "+" line = false → startsWithL "-" line = false →
          newLine.type = DiffLineType.context)) := by
  intro st line ch
  constructor
  · intro hmeta
    rcases isMetadataLine_head hmeta with ⟨x, xs, rfl, hx⟩
    unfold processLine
    rw [chunkHeader?_eq_none xs hx]
    simp only [hmeta, if_true]
  · intro hc hmeta hpm
    have hhdr : chunkHeader? line = none := by
      rcases Bool.or_eq_true_iff.mp hpm with h1 | h3
      · rcases Bool.or_eq_true_iff.mp h1 with h4 | h5
        · rcases startsWithL_head rfl h4 with ⟨xs, rfl⟩
          exact chunkHeader?_eq_none xs (by decide)
        · rcases startsWithL_head rfl h5 with ⟨xs, rfl⟩
          exact chunkHeader?_eq_none xs (by decide)
      · rcases startsWithL_head rfl h3 with ⟨xs, rfl⟩
        exact chunkHeader?_eq_none xs (by decide)
    refine ⟨{ type := if startsWithL "+" line then DiffLineType.added
                      else if startsWithL "-" line then DiffLineType.removed
                      else DiffLineType.context,
              content := String.mk (line.drop 1),
              lineNumber := if (if startsWithL "+" line then DiffLineType.added
                      else if startsWithL "-" line then DiffLineType.removed
                      else DiffLineType.context) = DiffLineType.added then
                  ch.newStart + (ch.lines.filter (fun l => l.type ≠ DiffLineType.removed)).length
                else
                  ch.oldStart + (ch.lines.filter (fun l => l.type ≠ DiffLineType.added)).length },
            ?_, rfl, ?_, ?_, ?_⟩
    · unfold processLine
      rw [hhdr]
      simp only [hmeta, Bool.false_eq_true, if_false, hc, hpm, if_true]
    · intro hplus
      simp only [hplus, if_true]
    · intro hplus hminus
      simp only [hplus, hminus, Bool.false_eq_true, if_false, if_true]
    · intro hplus hminus
      simp only [hplus, hminus, Bool.false_eq_true, if_false]

/-- C5 witness: on the concrete open-chunk state `c5state`, an added line
`+new code` is appended with type added and content `new code`, and the
metadata line `--- a/file` leaves the state unchanged. -/
theorem claim5_witness :
    processLine c5state ("--- a/file".data) = c5state ∧
    ∃ newLine : DiffLine,
      processLine c5state ("+new code".data) =
        { chunks := c5state.chunks,
          current := some { c5chunk with lines := c5chunk.lines ++ [newLine] } } ∧
      newLine.content = String.mk (("+new code".data).drop 1) ∧
      newLine.type = DiffLineType.added := by
  constructor
  · exact (claim5_line_routing c5state ("--- a/file".data) c5chunk).1 (by decide)
  · rcases (claim5_line_routing c5state ("+new code".data) c5chunk).2 (by rfl) (by decide)
        (by decide) with ⟨nl, heq, hcontent, hadd, _, _⟩
    exact ⟨nl, heq, hcontent, hadd (by decide)⟩

/-- The greedy character scan of a string against itself matches every
character. -/
theorem scanCount_self : ∀ l : List Char, scanCount l l = l.length
  | [] => rfl
  | c :: cs => by
    unfold scanCount
    have hidx : (c :: cs).findIdx? (fun x => x == c) = some 0 := by
      rw [List.findIdx?_cons]
      simp
    rw [hidx]
    simp only [List.drop_succ_cons, List.drop_zero, List.length_cons]
    rw [scanCount_self cs]
    omega

/-- Duplicating a list does not change the number of distinct elements. -/
theorem dedup_append_self_length (l : List (List Char)) :
    (l ++ l).dedup.length = l.dedup.length := by
  rw [← List.card_toFinset, ← List.card_toFinset, List.toFinset_append, Finset.union_self]

/-- `jsSplitChar` always returns at least one piece. -/
theorem jsSplitChar_ne_nil (sep : Char) (l : List Char) : jsSplitChar sep l ≠ [] := by
  cases l with
  | nil => simp [jsSplitChar]
  | cons c rest =>
    unfold jsSplitChar
    split
    · simp
    · split <;> simp

/-- C6: two strings with the same nonempty normalized form score exactly 1
(in particular `textSimilarity(s, s) = 1` for nonempty normalized `s`, and
case-differing strings score 1), and a string with empty normalized form
scores 0 against anything. -/
theorem claim6_textSimilarity : ∀ (s1 s2 : String),
    (normalizeChars s1.data = normalizeChars s2.data → normalizeChars s1.data ≠ [] →
      calculateTextSimilarity s1 s2 = 1) ∧
    (normalizeChars s1.data = [] ∨ normalizeChars s2.data = [] →
      calculateTextSimilarity s1 s2 = 0) := by
  intro s1 s2
  constructor
  · intro heq hne
    simp only [calculateTextSimilarity]
    rw [← heq]
    rw [if_neg (by simp [hne])]
    have hw : (splitOnSpace (normalizeChars s1.data)).dedup ≠ [] := by
      rw [Ne, List.dedup_eq_nil]
      exact jsSplitChar_ne_nil _ _
    have hfilter : ((splitOnSpace (normalizeChars s1.data)).dedup.filter
        (fun w => (splitOnSpace (normalizeChars s1.data)).dedup.contains w))
          = (splitOnSpace (normalizeChars s1.data)).dedup := by
      apply List.filter_eq_self.mpr
      intro a ha
      simpa [List.contains] using ha
    have hunion : ((splitOnSpace (normalizeChars s1.data)).dedup ++
        (splitOnSpace (normalizeChars s1.data)).dedup).dedup.length
          = (splitOnSpace (normalizeChars s1.data)).dedup.length := by
      rw [dedup_append_self_length, List.dedup_idem]
    have hlen : 0 < ((splitOnSpace (normalizeChars s1.data)).dedup ++
        (splitOnSpace (normalizeChars s1.data)).dedup).dedup.length := by
      rw [hunion]
      exact List.length_pos.mpr hw
    rw [if_pos hlen, hfilter, hunion]
    have hchar : calculateCharacterSimilarity (normalizeChars s1.data)
        (normalizeChars s1.data) = 1 := by
      unfold calculateCharacterSimilarity
      rw [if_neg (lt_irrefl _), if_pos (le_refl _)]
      rw [if_neg (by simpa [List.length_eq_zero] using hne)]
      rw [scanCount_self]
      rw [div_self (by simpa [List.length_eq_zero] using hne)]
    rw [hchar]
    rw [div_self (by
      simpa [List.length_eq_zero] using hw)]
    norm_num
  · intro h
    simp only [calculateTextSimilarity]
    rw [if_pos h]

/-- C6 witness: the spec's case-insensitivity example scores exactly 1, and an
empty first string scores 0. -/
theorem claim6_witness :
    calculateTextSimilarity "Add Rate Limiting" "add rate limiting" = 1 ∧
    calculateTextSimilarity "" "some text" = 0 :=
  ⟨(claim6_textSimilarity "Add Rate Limiting" "add rate limiting").1 (by decide) (by decide),
   (claim6_textSimilarity "" "some text").2 (Or.inl (by decide))⟩

/-- C9: `textSimilarity` is not symmetric.  For the strings `abc` and `cab`
(equal normalized lengths, so the scan always runs the second argument through
the first) the two orders give 1/10 and 1/5. -/
theorem claim9_asymmetry :
    calculateTextSimilarity "abc" "cab" ≠ calculateTextSimilarity "cab" "abc" ∧
    (normalizeChars "abc".data).length = (normalizeChars "cab".data).length := by
  have e1 : normalizeChars "abc".data = ['a', 'b', 'c'] := by decide
  have e2 : normalizeChars "cab".data = ['c', 'a', 'b'] := by decide
  have h1 : calculateTextSimilarity "abc" "cab" = 1 / 10 := by
    have hchar : calculateCharacterSimilarity ['a', 'b', 'c'] ['c', 'a', 'b'] = 1 / 3 := by
      simp only [calculateCharacterSimilarity]
      norm_num [show scanCount ['c', 'a', 'b'] ['a', 'b', 'c'] = 1 from by decide]
    simp only [calculateTextSimilarity, hchar, e1, e2,
      show (splitOnSpace ['a', 'b', 'c']).dedup = [['a', 'b', 'c']] from by decide,
      show (splitOnSpace ['c', 'a', 'b']).dedup = [['c', 'a', 'b']] from by decide,
      show List.filter (fun w => List.contains [['c', 'a', 'b']] w) [['a', 'b', 'c']] = []
        from by decide,
      show (([['a', 'b', 'c']] ++ [['c', 'a', 'b']] : List (List Char))).dedup.length = 2
        from by decide]
    norm_num
    exact ⟨List.cons_ne_nil _ _, List.cons_ne_nil _ _⟩
  have h2 : calculateTextSimilarity "cab" "abc" = 1 / 5 := by
    have hchar : calculateCharacterSimilarity ['c', 'a', 'b'] ['a', 'b', 'c'] = 2 / 3 := by
      simp only [calculateCharacterSimilarity]
      norm_num [show scanCount ['a', 'b', 'c'] ['c', 'a', 'b'] = 2 from by decide]
    simp only [calculateTextSimilarity, hchar, e1, e2,
      show (splitOnSpace ['a', 'b', 'c']).dedup = [['a', 'b', 'c']] from by decide,
      show (splitOnSpace ['c', 'a', 'b']).dedup = [['c', 'a', 'b']] from by decide,
      show List.filter (fun w => List.contains [['a', 'b', 'c']] w) [['c', 'a', 'b']] = []
        from by decide,
      show (([['c', 'a', 'b']] ++ [['a', 'b', 'c']] : List (List Char))).dedup.length = 2
        from by decide]
    norm_num
    exact ⟨List.cons_ne_nil _ _, List.cons_ne_nil _ _⟩
  refine ⟨?_, by decide⟩
  rw [h1, h2]
  norm_num

/-- C7: after `addEmbedding` the collection has no duplicate ids (given a
well-formed input), any record carrying the inserted id is the inserted record
(replace-by-id, no error), the records are sorted by `createdAt` descending,
the length is capped at `MAX_EMBEDDINGS`, and every record evicted by the cap
is at most as recent as every record kept. -/
theorem claim7_addEmbedding_invariants :
    ∀ (stored : StoredEmbeddings) (embedding : EmbeddingData),
    ((stored.embeddings.map (fun e => e.id)).Nodup →
      ((addEmbedding stored embedding).embeddings.map (fun e => e.id)).Nodup) ∧
    (∀ x ∈ (addEmbedding stored embedding).embeddings, x.id = embedding.id → x = embedding) ∧
    List.Pairwise createdDesc (addEmbedding stored embedding).embeddings ∧
    (addEmbedding stored embedding).embeddings.length ≤ MAX_EMBEDDINGS ∧
    (∀ x ∈ stored.embeddings.filter (fun e => e.id ≠ embedding.id) ++ [embedding],
      x ∉ (addEmbedding stored embedding).embeddings →
      ∀ y ∈ (addEmbedding stored embedding).embeddings, x.createdAt ≤ y.createdAt) := by
  intro stored embedding
  have hres : (addEmbedding stored embedding).embeddings =
      if MAX_EMBEDDINGS <
          (List.insertionSort createdDesc
            (stored.embeddings.filter (fun e => e.id ≠ embedding.id) ++ [embedding])).length then
        (List.insertionSort createdDesc
          (stored.embeddings.filter (fun e => e.id ≠ embedding.id) ++ [embedding])).take
            MAX_EMBEDDINGS
      else
        List.insertionSort createdDesc
          (stored.embeddings.filter (fun e => e.id ≠ embedding.id) ++ [embedding]) := rfl
  have hperm : (List.insertionSort createdDesc
      (stored.embeddings.filter (fun e => e.id ≠ embedding.id) ++ [embedding])).Perm
        (stored.embeddings.filter (fun e => e.id ≠ embedding.id) ++ [embedding]) :=
    List.perm_insertionSort _ _
  have hsorted : List.Pairwise createdDesc (List.insertionSort createdDesc
      (stored.embeddings.filter (fun e => e.id ≠ embedding.id) ++ [embedding])) :=
    List.sorted_insertionSort createdDesc _
  have hsub : (addEmbedding stored embedding).embeddings.Sublist
      (List.insertionSort createdDesc
        (stored.embeddings.filter (fun e => e.id ≠ embedding.id) ++ [embedding])) := by
    rw [hres]
    split
    · exact List.take_sublist _ _
    · exact List.Sublist.refl _
  refine ⟨?_, ?_, ?_, ?_, ?_⟩
  · intro hnodup
    have h1 : ((stored.embeddings.filter (fun e => e.id ≠ embedding.id)).map
        (fun e => e.id)).Nodup :=
      List.Nodup.sublist (List.Sublist.map _ (List.filter_sublist _)) hnodup
    have hdisj : ((stored.embeddings.filter (fun e => e.id ≠ embedding.id)).map
        (fun e => e.id)).Disjoint [embedding.id] := by
      intro a ha hb
      rcases List.mem_map.mp ha with ⟨e, he, rfl⟩
      have := of_decide_eq_true (List.mem_filter.mp he).2
      simp only [List.mem_singleton] at hb
      exact this hb
    have h2 : (((stored.embeddings.filter (fun e => e.id ≠ embedding.id)) ++
        [embedding]).map (fun e => e.id)).Nodup := by
      rw [List.map_append]
      exact List.Nodup.append h1 (List.nodup_singleton _) hdisj
    have h3 := (List.Perm.nodup_iff (List.Perm.map (fun e => e.id) hperm)).mpr h2
    exact List.Nodup.sublist (List.Sublist.map _ hsub) h3
  · intro x hx hid
    have hx2 : x ∈ stored.embeddings.filter (fun e => e.id ≠ embedding.id) ++ [embedding] :=
      (List.Perm.mem_iff hperm).mp (List.Sublist.subset hsub hx)
    rcases List.mem_append.mp hx2 with h1 | h2
    · exact absurd hid (of_decide_eq_true (List.mem_filter.mp h1).2)
    · simpa using h2
  · exact List.Pairwise.sublist hsub hsorted
  · rw [hres]
    split
    · exact List.length_take_le _ _
    · rename_i hlen
      exact Nat.le_of_not_lt hlen
  · intro x hx hnot y hy
    have hxs : x ∈ List.insertionSort createdDesc
        (stored.embeddings.filter (fun e => e.id ≠ embedding.id) ++ [embedding]) :=
      (List.Perm.mem_iff hperm).mpr hx
    rw [hres] at hnot hy
    by_cases hcap : MAX_EMBEDDINGS <
        (List.insertionSort createdDesc
          (stored.embeddings.filter (fun e => e.id ≠ embedding.id) ++ [embedding])).length
    · rw [if_pos hcap] at hnot hy
      have hsplit := List.take_append_drop MAX_EMBEDDINGS
        (List.insertionSort createdDesc
          (stored.embeddings.filter (fun e => e.id ≠ embedding.id) ++ [embedding]))
      have hxdrop : x ∈ (List.insertionSort createdDesc
          (stored.embeddings.filter (fun e => e.id ≠ embedding.id) ++ [embedding])).drop
            MAX_EMBEDDINGS := by
        rw [← hsplit] at hxs
        rcases List.mem_append.mp hxs with h1 | h2
        · exact absurd h1 hnot
        · exact h2
      have hpair : List.Pairwise createdDesc
          ((List.insertionSort createdDesc
            (stored.embeddings.filter (fun e => e.id ≠ embedding.id) ++ [embedding])).take
              MAX_EMBEDDINGS ++
           (List.insertionSort createdDesc
            (stored.embeddings.filter (fun e => e.id ≠ embedding.id) ++ [embedding])).drop
              MAX_EMBEDDINGS) := by
        rw [hsplit]
        exact hsorted
      exact (List.pairwise_append.mp hpair).2.2 y hy x hxdrop
    · rw [if_neg hcap] at hnot
      exact absurd hxs hnot

/-- C7 witness: inserting `c7new` (id `pr:1`) into `c7stored` (distinct ids
`pr:1`, `issue:2`) keeps the id list duplicate-free. -/
theorem claim7_witness :
    ((addEmbedding c7stored c7new).embeddings.map (fun e => e.id)).Nodup :=
  (claim7_addEmbedding_invariants c7stored c7new).1 (by decide)
